import Mathlib

/-!
Verification of the AiKiCad AI-chat command pipeline
(`src/plugins/ai_chat/ai_command_processor.cpp`, `ai_service.cpp`).

Strings are modelled as `List Char`.  The wxWidgets string operations used by
the source (`Trim`, `Lower`, `Find`, `SubString`, `Mid`, `StartsWith`,
`Contains`, `CmpNoCase`) are embedded as executable functions below, and each
source function is translated into a Lean definition of the same name.
-/

/-- Strings of the embedding: lists of characters. -/
abbrev Str := List Char

/-- Conversion from a Lean string literal. -/
def str (s : String) : Str := s.data

/-- White space as recognized by `wxString::Trim` (space, tab, CR, LF). -/
def isWS (c : Char) : Bool := c == ' ' || c == '\t' || c == '\n' || c == '\r'

/-- Remove leading white space (`wxString::Trim(false)`). -/
def trimLeftL : Str → Str
  | [] => []
  | c :: cs => if isWS c then trimLeftL cs else c :: cs

/-- Remove trailing white space (`wxString::Trim(true)`, the default `Trim()`). -/
def trimRightL (l : Str) : Str := (trimLeftL l.reverse).reverse

/-- Remove white space on both sides (`Trim(false).Trim(true)`). -/
def trimL (l : Str) : Str := trimRightL (trimLeftL l)

/-- ASCII lowering of one character (`wxString::Lower`, per character). -/
def lowerC (c : Char) : Char := c.toLower

/-- `wxString::Lower`. -/
def lowerL (l : Str) : Str := l.map lowerC

/-- `wxString::StartsWith` (case-sensitive). -/
def isPrefixL : Str → Str → Bool
  | [], _ => true
  | _ :: _, [] => false
  | p :: ps, c :: cs => p == c && isPrefixL ps cs

/-- `wxString::EndsWith` (case-sensitive). -/
def isSuffixL (p l : Str) : Bool := isPrefixL p.reverse l.reverse

/-- `wxString::Contains`: case-sensitive substring test. -/
def isInfixL (pat : Str) : Str → Bool
  | [] => isPrefixL pat []
  | l@(_ :: cs) => isPrefixL pat l || isInfixL pat cs

/-- `wxString::Find`: index of the first occurrence of a substring, if any. -/
def findSubIdx? (pat : Str) : Str → Option Nat
  | [] => if isPrefixL pat [] then some 0 else none
  | l@(_ :: cs) =>
    if isPrefixL pat l then some 0
    else (findSubIdx? pat cs).map (· + 1)

/-- `wxString::CmpNoCase(a, b) == 0`. -/
def cmpNoCase (a b : Str) : Bool := lowerL a == lowerL b

/-- `wxString::SubString(from, to)`: characters `from` to `to`, inclusive. -/
def subStringL (l : Str) (a b : Nat) : Str := (l.drop a).take (b + 1 - a)

/-- `wxSplit(s, sep, '\0')`: split on a separator character, no escaping. -/
def splitChar (sep : Char) : Str → List Str
  | [] => [[]]
  | c :: cs =>
    if c == sep then [] :: splitChar sep cs
    else
      match splitChar sep cs with
      | [] => [[c]]
      | h :: t => (c :: h) :: t

/-- `wxJoin(names, sep)`. -/
def joinChar (sep : Char) : List Str → Str
  | [] => []
  | [l] => l
  | l :: ls => l ++ sep :: joinChar sep ls

/-- The backquote character used by the miner's delimiter scan. -/
def backquote : Char := Char.ofNat 96

/-- Test of the four verbs recognized by the miner:
`cmd.Lower().StartsWith` for add / connect / wire / place. -/
def startsWithVerb (cmd : Str) : Bool :=
  isPrefixL (str "add") (lowerL cmd) ||
  isPrefixL (str "connect") (lowerL cmd) ||
  isPrefixL (str "wire") (lowerL cmd) ||
  isPrefixL (str "place") (lowerL cmd)

/-- Backtick branch of the miner (`ai_command_processor.cpp` lines 372-392):
extract the first backtick-delimited span and emit it when it begins with one
of the four verbs. -/
def backtickBranch (trimmed : Str) : Option Str :=
  match findSubIdx? [backquote] trimmed with
  | none => none
  | some bs =>
    match (findSubIdx? [backquote] (trimmed.drop (bs + 1))).map (· + (bs + 1)) with
    | none => none
    | some be =>
      let cmd := trimL (subStringL trimmed (bs + 1) (be - 1))
      if cmd ≠ [] && startsWithVerb cmd then some cmd else none

/-- The `command:` branch of the miner (lines 394-415): after a case-insensitive
`command:` marker, emit the contents of the next backtick span (no verb check,
only non-emptiness). -/
def commandColonBranch (trimmed : Str) : Option Str :=
  match findSubIdx? (str "command:") (lowerL trimmed) with
  | none => none
  | some p =>
    let afterColon := trimLeftL (trimmed.drop (p + 8))
    match findSubIdx? [backquote] afterColon with
    | none => none
    | some bs =>
      match (findSubIdx? [backquote] (afterColon.drop (bs + 1))).map (· + (bs + 1)) with
      | none => none
      | some be =>
        let cmd := trimL (subStringL afterColon (bs + 1) (be - 1))
        if cmd ≠ [] then some cmd else none

/-- Numbered-list branch of the miner (lines 417-431): strip a `<digit>.` or
`<digit>)` prefix and emit the rest when it begins with one of the verbs. -/
def numberedBranch (trimmed : Str) : Option Str :=
  match trimmed with
  | c0 :: c1 :: c2 :: rest =>
    if c0.isDigit && (c1 == '.' || c1 == ')') then
      let cmd := trimLeftL (c2 :: rest)
      if startsWithVerb cmd then some cmd else none
    else none
  | _ => none

/-- Bare-command branch of the miner (lines 433-440). -/
def bareBranch (trimmed : Str) : Option Str :=
  if startsWithVerb trimmed then some trimmed else none

/-- Per-line command extraction of `ProcessCommandsFromResponse`
(lines 359-441): skip blank lines, markdown headers and bold headers, then try
the backtick, `command:`, numbered and bare branches in order. -/
def extractCommandFromLine (line : Str) : Option Str :=
  let trimmed := trimL line
  if trimmed == [] then none
  else if isPrefixL (str "#") trimmed then none
  else if isPrefixL (str "**") trimmed && isSuffixL (str ":**") trimmed then none
  else
    match backtickBranch trimmed with
    | some c => some c
    | none =>
      match commandColonBranch trimmed with
      | some c => some c
      | none =>
        match numberedBranch trimmed with
        | some c => some c
        | none => bareBranch trimmed

/-- The miner: ordered command extraction over the split lines of a response. -/
def extractCommands (response : Str) : List Str :=
  (splitChar '\n' response).filterMap extractCommandFromLine

/-- Result record of one command (`AI_COMMAND_RESULT`). -/
structure AICommandResult where
  success : Bool
  message : Str
  error : Str
deriving DecidableEq, Repr

/-- Pass-1 filter of the two-pass scheduler (lines 450-451):
the trimmed command's lowering contains `component` or `symbol`. -/
def isPass1Cmd (cmd : Str) : Bool :=
  isInfixL (str "component") (lowerL cmd) || isInfixL (str "symbol") (lowerL cmd)

/-- Pass-2 filter of the two-pass scheduler (lines 486-487):
the trimmed command's lowering contains `connect` or `wire`. -/
def isPass2Cmd (cmd : Str) : Bool :=
  isInfixL (str "connect") (lowerL cmd) || isInfixL (str "wire") (lowerL cmd)

/-- Accumulated state of the execution loops of `ProcessCommandsFromResponse`.
`calls` is the instrumented trace of the commands handed to
`processDirectCommand`, in invocation order; the other fields are the
variables of the source. -/
structure PassState where
  executedCommands : Str
  failedCommands : Str
  commandCount : Nat
  failedCount : Nat
  calls : List Str
deriving DecidableEq, Repr

/-- Loop body shared by both passes (lines 444-469 and 480-505): trim the
command, and when the pass filter accepts it, execute it and log the result. -/
def passStep (exec : Str → AICommandResult) (keep : Str → Bool)
    (st : PassState) (command : Str) : PassState :=
  let cmd := trimL command
  if keep cmd then
    let r := exec cmd
    if r.success then
      { st with
        commandCount := st.commandCount + 1
        executedCommands :=
          (if st.executedCommands == [] then [] else st.executedCommands ++ str "\n")
            ++ str "✓ " ++ cmd
        calls := st.calls ++ [cmd] }
    else
      { st with
        failedCount := st.failedCount + 1
        failedCommands :=
          (if st.failedCommands == [] then [] else st.failedCommands ++ str "\n")
            ++ str "✗ " ++ cmd ++ str " (" ++ r.error ++ str ")"
        calls := st.calls ++ [cmd] }
  else st

/-- One pass over the mined command list. -/
def runPass (exec : Str → AICommandResult) (keep : Str → Bool)
    (cmds : List Str) (st : PassState) : PassState :=
  cmds.foldl (passStep exec keep) st

/-- Decimal rendering used by `wxString::Format("%d", n)`. -/
def natStr (n : Nat) : Str := (toString n).data

/-- Aggregated report of `ProcessCommandsFromResponse` (lines 508-516). -/
def buildReport (st : PassState) : Str :=
  (str "Executed " ++ natStr st.commandCount ++ str " command(s)"
      ++ (if st.failedCount > 0 then str ", " ++ natStr st.failedCount ++ str " failed" else [])
      ++ str ":\n" ++ st.executedCommands)
    ++ (if st.failedCommands == [] then [] else str "\n\nFailed:\n" ++ st.failedCommands)

/-- Final result construction of `ProcessCommandsFromResponse`
(lines 507-520): success with the aggregated report when any command was
attempted, else the `No commands found in response` failure. -/
def aggregateResult (st2 : PassState) : AICommandResult × List Str :=
  if st2.commandCount > 0 ∨ st2.failedCount > 0 then
    (⟨true, buildReport st2, []⟩, st2.calls)
  else
    (⟨false, [], str "No commands found in response"⟩, st2.calls)

/-- `AI_COMMAND_PROCESSOR::ProcessCommandsFromResponse` (lines 343-521),
parameterized by the presence of the host frame and by the per-command
executor (`processDirectCommand`).  Returns the pipeline `AICommandResult`
together with the instrumented execution trace. -/
def processCommandsFromResponse (framePresent : Bool)
    (exec : Str → AICommandResult) (response : Str) :
    AICommandResult × List Str :=
  if !framePresent then
    (⟨false, [], str "No frame available"⟩, [])
  else
    aggregateResult
      (runPass exec isPass2Cmd (extractCommands response)
        (runPass exec isPass1Cmd (extractCommands response) ⟨[], [], 0, 0, []⟩))

/-- Response record of the generator client (`AI_RESPONSE`). -/
structure AIResponse where
  success : Bool
  message : Str
  error : Str
  isComplete : Bool
deriving DecidableEq, Repr

/-- One line of the newline-delimited streaming body after JSON parsing:
either a parsed object with its optional `response` fragment and `done` flag,
or a malformed line (skipped silently by the source). -/
inductive OllamaLine where
  | parsed (response : Option Str) (doneFlag : Bool)
  | malformed
deriving DecidableEq, Repr

/-- Fragment concatenation loop of the streaming branch of
`OLLAMA_AI_SERVICE::makeApiRequest` (`ai_service.cpp` lines 216-242):
append each `response` fragment and stop after the first line whose `done`
flag is true. -/
def streamLoop : List OllamaLine → Str
  | [] => []
  | .malformed :: rest => streamLoop rest
  | .parsed resp doneFlag :: rest =>
    let chunkPart := match resp with | some s => s | none => []
    if doneFlag then chunkPart else chunkPart ++ streamLoop rest

/-- Fragments delivered to the `aStreamCallback` chunk callback, in order. -/
def streamChunks : List OllamaLine → List Str
  | [] => []
  | .malformed :: rest => streamChunks rest
  | .parsed resp doneFlag :: rest =>
    let here := match resp with | some s => [s] | none => []
    if doneFlag then here else here ++ streamChunks rest

/-- Streaming branch of `OLLAMA_AI_SERVICE::makeApiRequest`
(lines 183-247): after a successful transfer the whole buffered body is
tokenized and folded by `streamLoop`; the result always carries
`success = true` and `isComplete = true`.  On a transfer failure the default
response with a connection error is returned. -/
def makeApiRequestStreaming (curlOk : Bool) (curlErrText : Str)
    (lines : List OllamaLine) : AIResponse :=
  if !curlOk then
    ⟨false, [], str "Failed to connect to Ollama: " ++ curlErrText, false⟩
  else
    ⟨true, streamLoop lines, [], true⟩

/-- Preferred default model of `OLLAMA_AI_SERVICE` (`ai_service.cpp` line 33). -/
def defaultOllamaModel : Str := str "qwen2.5-coder:32b"

/-- Code-model test of the constructor (line 48). -/
def isCodeModel (m : Str) : Bool :=
  isInfixL (str "coder") m || isInfixL (str "code") m

/-- Model selection in the `OLLAMA_AI_SERVICE` constructor (lines 36-60):
when the connection probe succeeds and the model list is non-empty, select
the first model whose name contains `coder` or `code`, else the first model;
otherwise keep the preferred default. -/
def selectModelAtConstruction (testConnectionOk : Bool) (models : List Str) : Str :=
  if testConnectionOk then
    match models with
    | [] => defaultOllamaModel
    | first :: _ =>
      match models.find? isCodeModel with
      | some m => m
      | none => first
  else defaultOllamaModel

/-- The trace of executed commands grows by exactly the trimmed commands
accepted by the pass filter, in list order. -/
theorem runPass_calls (exec : Str → AICommandResult) (keep : Str → Bool)
    (cmds : List Str) : ∀ st : PassState,
    (runPass exec keep cmds st).calls = st.calls ++ (cmds.map trimL).filter keep := by
  induction cmds with
  | nil => intro st; simp [runPass]
  | cons c cs ih =>
    intro st
    have hstep : runPass exec keep (c :: cs) st = runPass exec keep cs (passStep exec keep st c) := rfl
    rw [hstep, ih]
    simp only [List.map_cons, List.filter_cons]
    cases h : keep (trimL c) with
    | false =>
      have hst : passStep exec keep st c = st := by simp [passStep, h]
      rw [hst]; simp [h]
    | true =>
      cases hs : (exec (trimL c)).success <;>
        simp [passStep, h, hs, List.append_assoc]

/-- Every accepted command increments exactly one of the two counters. -/
theorem runPass_counts (exec : Str → AICommandResult) (keep : Str → Bool)
    (cmds : List Str) : ∀ st : PassState,
    (runPass exec keep cmds st).commandCount + (runPass exec keep cmds st).failedCount
      = st.commandCount + st.failedCount + ((cmds.map trimL).filter keep).length := by
  induction cmds with
  | nil => intro st; simp [runPass]
  | cons c cs ih =>
    intro st
    have hstep : runPass exec keep (c :: cs) st = runPass exec keep cs (passStep exec keep st c) := rfl
    rw [hstep, ih]
    simp only [List.map_cons, List.filter_cons]
    cases h : keep (trimL c) with
    | false =>
      have hst : passStep exec keep st c = st := by simp [passStep, h]
      rw [hst]; simp [h]
    | true =>
      cases hs : (exec (trimL c)).success
      · simp [passStep, h, hs, List.length_cons]
        omega
      · simp [passStep, h, hs, List.length_cons]
        omega

/-- Result aggregation never alters the trace. -/
theorem aggregateResult_calls (st : PassState) : (aggregateResult st).2 = st.calls := by
  unfold aggregateResult; split <;> rfl

/-- The aggregated result succeeds exactly when some command was counted. -/
theorem aggregateResult_success (st : PassState) :
    (aggregateResult st).1.success = true ↔ st.commandCount > 0 ∨ st.failedCount > 0 := by
  unfold aggregateResult
  split
  · next h => simpa using h
  · next h => simpa using h

/-- Characterization of the pipeline's execution trace: the pass-1 commands in
miner order, then the pass-2 commands in miner order. -/
theorem processCommands_calls (exec : Str → AICommandResult) (response : Str) :
    (processCommandsFromResponse true exec response).2 =
      ((extractCommands response).map trimL).filter isPass1Cmd
        ++ ((extractCommands response).map trimL).filter isPass2Cmd := by
  unfold processCommandsFromResponse
  simp only [Bool.not_true, Bool.false_eq_true, if_false]
  rw [aggregateResult_calls, runPass_calls, runPass_calls]
  rfl

/-- Occurrence count of an element in a filtered list. -/
theorem count_filter_eq (p : Str → Bool) (l : List Str) (a : Str) :
    (l.filter p).count a = if p a then l.count a else 0 := by
  split
  · next h => exact List.count_filter h
  · next h =>
    refine List.count_eq_zero.mpr fun hmem => ?_
    have := List.of_mem_filter hmem
    rw [this] at h
    exact h rfl

/-- C1: in every run of `ProcessCommandsFromResponse`, every command executed
in the placement pass (pass 1, component/symbol commands) is executed before
any command of the connection pass (pass 2, connect/wire commands), and within
each pass the commands execute in the miner's original order (each pass trace
is a sublist of the mined list). -/
theorem two_pass_execution_order (exec : Str → AICommandResult) (response : Str) :
    (processCommandsFromResponse true exec response).2 =
      ((extractCommands response).map trimL).filter isPass1Cmd
        ++ ((extractCommands response).map trimL).filter isPass2Cmd
    ∧ (((extractCommands response).map trimL).filter isPass1Cmd).Sublist
        ((extractCommands response).map trimL)
    ∧ (((extractCommands response).map trimL).filter isPass2Cmd).Sublist
        ((extractCommands response).map trimL) :=
  ⟨processCommands_calls exec response, List.filter_sublist _, List.filter_sublist _⟩

/-- C2 counterexample: the two-pass split is not a partition.  The command
`place Device:R` is mined (it begins with the verb `place`) but mentions
neither `component`/`symbol` nor `connect`/`wire`, so the pipeline executes it
zero times, not exactly once. -/
theorem two_pass_not_partition_cex :
    extractCommands (str "place Device:R") = [str "place Device:R"]
    ∧ (processCommandsFromResponse true (fun _ => ⟨true, [], []⟩) (str "place Device:R")).2 = [] := by
  constructor
  · decide
  · decide

/-- C2 amended: a mined command is executed once for each pass-filter keyword
set its body mentions — once in pass 1 when it mentions `component` or
`symbol`, once in pass 2 when it mentions `connect` or `wire` — hence zero
times when it mentions neither and twice when it mentions both. -/
theorem two_pass_execution_count (exec : Str → AICommandResult) (response : Str) (c : Str) :
    ((processCommandsFromResponse true exec response).2).count c
      = (((extractCommands response).map trimL).count c)
          * ((if isPass1Cmd c then 1 else 0) + (if isPass2Cmd c then 1 else 0)) := by
  rw [processCommands_calls, List.count_append, count_filter_eq, count_filter_eq]
  cases h1 : isPass1Cmd c <;> cases h2 : isPass2Cmd c <;> simp <;> ring

/-- C9: the pipeline-level result of `ProcessCommandsFromResponse` has
`success = true` exactly when at least one command was attempted (handed to
`processDirectCommand`), even if every attempted command failed; it is
`false` only when no command was attempted (or no frame is available, in
which case nothing is attempted either). -/
theorem pipeline_success_iff_attempted (framePresent : Bool)
    (exec : Str → AICommandResult) (response : Str) :
    (processCommandsFromResponse framePresent exec response).1.success = true
      ↔ (processCommandsFromResponse framePresent exec response).2 ≠ [] := by
  cases framePresent with
  | false => simp [processCommandsFromResponse]
  | true =>
    have hcalls := processCommands_calls exec response
    have h1 : (processCommandsFromResponse true exec response).1
        = (aggregateResult
            (runPass exec isPass2Cmd (extractCommands response)
              (runPass exec isPass1Cmd (extractCommands response) ⟨[], [], 0, 0, []⟩))).1 := by
      unfold processCommandsFromResponse
      simp only [Bool.not_true, Bool.false_eq_true, if_false]
    rw [h1, aggregateResult_success]
    have hcount := runPass_counts exec isPass2Cmd (extractCommands response)
      (runPass exec isPass1Cmd (extractCommands response) ⟨[], [], 0, 0, []⟩)
    have hcount1 := runPass_counts exec isPass1Cmd (extractCommands response) ⟨[], [], 0, 0, []⟩
    have hlen : ((processCommandsFromResponse true exec response).2).length
        = (runPass exec isPass2Cmd (extractCommands response)
            (runPass exec isPass1Cmd (extractCommands response) ⟨[], [], 0, 0, []⟩)).commandCount
          + (runPass exec isPass2Cmd (extractCommands response)
              (runPass exec isPass1Cmd (extractCommands response) ⟨[], [], 0, 0, []⟩)).failedCount := by
      rw [hcalls, List.length_append, hcount, hcount1]
      simp
    constructor
    · intro h hnil
      rw [hnil] at hlen
      simp at hlen
      omega
    · intro h
      by_contra hc
      push_neg at hc
      have hz : ((processCommandsFromResponse true exec response).2).length = 0 := by omega
      exact h (List.eq_nil_of_length_eq_zero hz)

/-- The concatenated text of the streaming loop equals the concatenation of
exactly the fragments delivered to the chunk callback. -/
theorem streamLoop_eq_flatten_chunks (lines : List OllamaLine) :
    streamLoop lines = (streamChunks lines).flatten := by
  induction lines with
  | nil => rfl
  | cons l rest ih =>
    cases l with
    | malformed => simpa [streamLoop, streamChunks] using ih
    | parsed resp doneFlag =>
      cases resp <;> cases doneFlag <;> simp [streamLoop, streamChunks, ih]

/-- C5 counterexample: in the claim's own scenario — fragments `add `,
`component `, `Device:R` with a cancel request raised after the second
fragment — the streaming client (which consults no cancel token) returns
`isComplete = true` and the full concatenation, not `complete = false` with
the text that had arrived before cancellation. -/
theorem streaming_cancel_cex :
    (makeApiRequestStreaming true []
        [OllamaLine.parsed (some (str "add ")) false,
         OllamaLine.parsed (some (str "component ")) false,
         OllamaLine.parsed (some (str "Device:R")) false]).isComplete = true
    ∧ (makeApiRequestStreaming true []
        [OllamaLine.parsed (some (str "add ")) false,
         OllamaLine.parsed (some (str "component ")) false,
         OllamaLine.parsed (some (str "Device:R")) false]).message
        = str "add component Device:R"
    ∧ str "add component Device:R" ≠ str "add component " := by
  refine ⟨by decide, by decide, by decide⟩

/-- C5 amended: after a successful transfer the streaming client consumes
every fragment up to the first `done` marker regardless of any cancellation
request, and returns `success = true`, `complete = true`, and a text equal to
the concatenation of exactly the fragments delivered to the chunk callback;
cancellation is handled only in the UI layer. -/
theorem streaming_consumes_all_fragments (curlErrText : Str) (lines : List OllamaLine) :
    makeApiRequestStreaming true curlErrText lines
      = ⟨true, (streamChunks lines).flatten, [], true⟩ := by
  simp [makeApiRequestStreaming, streamLoop_eq_flatten_chunks]

/-- C8: the constructor's model auto-selection disregards whether the
preferred default model is present in the list: with the list
`[deepseek-coder:6.7b, qwen2.5-coder:32b]`, which contains the preferred
default `qwen2.5-coder:32b`, the selection nevertheless replaces it with
`deepseek-coder:6.7b` (the first name containing `coder`/`code`). -/
theorem model_selection_ignores_presence :
    defaultOllamaModel ∈ [str "deepseek-coder:6.7b", defaultOllamaModel]
    ∧ selectModelAtConstruction true [str "deepseek-coder:6.7b", defaultOllamaModel]
        = str "deepseek-coder:6.7b"
    ∧ str "deepseek-coder:6.7b" ≠ defaultOllamaModel := by
  refine ⟨by decide, by decide, by decide⟩

theorem startsWithVerb_ne_nil {c : Str} (h : startsWithVerb c = true) : c ≠ [] := by
  intro hnil
  subst hnil
  exact absurd h (by decide)

theorem findSubIdx?_isInfix {pat : Str} : ∀ {l : List Char} {p : Nat},
    findSubIdx? pat l = some p → isInfixL pat l = true := by
  intro l
  induction l with
  | nil =>
    intro p h
    unfold findSubIdx? at h
    split at h
    · next hp => simp [isInfixL, hp]
    · simp at h
  | cons a as ih =>
    intro p h
    unfold findSubIdx? at h
    split at h
    · next hp => simp [isInfixL, hp]
    · cases hr : findSubIdx? pat as with
      | none => rw [hr] at h; simp at h
      | some q =>
        have := ih hr
        simp [isInfixL, this]

theorem backtickBranch_some {t c : Str} (h : backtickBranch t = some c) :
    c ≠ [] ∧ startsWithVerb c = true := by
  unfold backtickBranch at h
  split at h
  · simp at h
  · split at h
    · simp at h
    · dsimp only at h
      split at h
      · next hcond =>
        simp only [Option.some.injEq] at h
        subst h
        simp only [Bool.and_eq_true, decide_eq_true_eq] at hcond
        exact hcond
      · simp at h

theorem commandColonBranch_some {t c : Str} (h : commandColonBranch t = some c) :
    c ≠ [] ∧ isInfixL (str "command:") (lowerL t) = true := by
  unfold commandColonBranch at h
  split at h
  · simp at h
  · next p hp =>
    refine ⟨?_, findSubIdx?_isInfix hp⟩
    dsimp only at h
    split at h
    · simp at h
    · split at h
      · simp at h
      · split at h
        · next hcond =>
          simp only [Option.some.injEq] at h
          subst h
          simpa using hcond
        · simp at h

theorem numberedBranch_some {t c : Str} (h : numberedBranch t = some c) :
    startsWithVerb c = true := by
  unfold numberedBranch at h
  split at h
  · split at h
    · dsimp only at h
      split at h
      · next hv =>
        simp only [Option.some.injEq] at h
        subst h
        exact hv
      · simp at h
    · simp at h
  · simp at h

theorem bareBranch_some {t c : Str} (h : bareBranch t = some c) :
    c = t ∧ startsWithVerb c = true := by
  unfold bareBranch at h
  split at h
  · next hv =>
    simp only [Option.some.injEq] at h
    subst h
    exact ⟨rfl, hv⟩
  · simp at h

/-- C3 counterexample: the `command:` branch of the miner emits the backtick
span contents with no verb check: the line `command: (backtick)foo(backtick)`
emits the candidate command `foo`, which begins with none of the four verbs
add/connect/wire/place. -/
theorem miner_verb_cex :
    extractCommands (str "command: `foo`") = [str "foo"]
    ∧ startsWithVerb (str "foo") = false := by
  refine ⟨by decide, by decide⟩

/-- C3 amended: every candidate command emitted by the miner is non-empty and
either begins, case-insensitively, with one of the four verbs add, connect,
wire, place, or was extracted by the `command:` branch (whose line contains
the case-insensitive marker `command:`), which emits the backtick span
verbatim with no verb check. -/
theorem miner_emits_verb_or_commandColon (line cmd : Str)
    (h : extractCommandFromLine line = some cmd) :
    cmd ≠ [] ∧ (startsWithVerb cmd = true
      ∨ isInfixL (str "command:") (lowerL (trimL line)) = true) := by
  unfold extractCommandFromLine at h
  dsimp only at h
  split at h
  · simp at h
  · split at h
    · simp at h
    · split at h
      · simp at h
      · split at h
        · next c0 hb =>
          simp only [Option.some.injEq] at h
          subst h
          obtain ⟨hne, hv⟩ := backtickBranch_some hb
          exact ⟨hne, Or.inl hv⟩
        · split at h
          · next c0 hcc =>
            simp only [Option.some.injEq] at h
            subst h
            obtain ⟨hne, hinf⟩ := commandColonBranch_some hcc
            exact ⟨hne, Or.inr hinf⟩
          · split at h
            · next c0 hn =>
              simp only [Option.some.injEq] at h
              subst h
              have hv := numberedBranch_some hn
              exact ⟨startsWithVerb_ne_nil hv, Or.inl hv⟩
            · obtain ⟨rfl, hv⟩ := bareBranch_some h
              exact ⟨startsWithVerb_ne_nil hv, Or.inl hv⟩

/-- Witness for the amended C3 theorem at the concrete numbered-list line
`1. add component Device:R`. -/
theorem miner_emits_verb_or_commandColon_wit :
    str "add component Device:R" ≠ []
    ∧ (startsWithVerb (str "add component Device:R") = true
      ∨ isInfixL (str "command:") (lowerL (trimL (str "1. add component Device:R"))) = true) :=
  miner_emits_verb_or_commandColon (str "1. add component Device:R")
    (str "add component Device:R") (by decide)

/-- Character class `\w` of the source's regexes. -/
def isWordChar (c : Char) : Bool := c.isAlpha || c.isDigit || c == '_'

/-- Character class `[\w\-]` of the `lib:sym` groups. -/
def isWordHyphenChar (c : Char) : Bool := isWordChar c || c == '-'

/-- Match a literal, returning the rest of the input. -/
def matchLit : Str → Str → Option Str
  | [], rest => some rest
  | _ :: _, [] => none
  | p :: ps, c :: cs => if p == c then matchLit ps cs else none

/-- Maximal run of characters satisfying a class (greedy `+`/`*`). -/
def takeRun (p : Char → Bool) : Str → Str × Str
  | [] => ([], [])
  | c :: cs =>
    if p c then
      let r := takeRun p cs
      (c :: r.1, r.2)
    else ([], c :: cs)

/-- Greedy non-empty run (`+`). -/
def matchRun1 (p : Char → Bool) (l : Str) : Option (Str × Str) :=
  match takeRun p l with
  | ([], _) => none
  | (r, rest) => some (r, rest)

/-- `\s+`. -/
def matchWS1 (l : Str) : Option Str := (matchRun1 isWS l).map (·.2)

/-- `\s*`. -/
def matchWSStar (l : Str) : Str := (takeRun isWS l).2

/-- Digit run to a number. -/
def digitsToNat (ds : Str) : Nat := ds.foldl (fun a c => a * 10 + (c.toNat - 48)) 0

/-- `[+-]?\d+` with `wxString::ToLong` conversion. -/
def matchInt : Str → Option (Int × Str)
  | '+' :: r => (matchRun1 Char.isDigit r).map (fun p => ((digitsToNat p.1 : Int), p.2))
  | '-' :: r => (matchRun1 Char.isDigit r).map (fun p => (-(digitsToNat p.1 : Int), p.2))
  | r => (matchRun1 Char.isDigit r).map (fun p => ((digitsToNat p.1 : Int), p.2))

/-- Optional coordinate clause `(?:\s+at\s+([+-]?\d+)\s*,\s*([+-]?\d+))?` of
`parseAddComponent`. -/
def matchAtClause (l : Str) : Option (Int × Int) := do
  let r ← matchWS1 l
  let r ← matchLit (str "at") r
  let r ← matchWS1 r
  let (x, r) ← matchInt r
  let r := matchWSStar r
  let r ← matchLit [','] r
  let r := matchWSStar r
  let (y, _) ← matchInt r
  some (x, y)

/-- Unanchored leftmost regex search: try the fixed-position matcher at every
start index, first success wins. -/
def scanMatch {α : Type} (f : Str → Option α) : Str → Option α
  | [] => f []
  | c :: cs =>
    match f (c :: cs) with
    | some r => some r
    | none => scanMatch f cs

/-- Fixed-position matcher of `parseAddComponent`'s first pattern
`add\s+component\s+([\w\-]+):([\w\-]+)(?:\s+at\s+...)?` (lines 906-926). -/
def tryAddLibSym (l : Str) : Option (Str × Option (Int × Int)) := do
  let r ← matchLit (str "add") l
  let r ← matchWS1 r
  let r ← matchLit (str "component") r
  let r ← matchWS1 r
  let (lib, r) ← matchRun1 isWordHyphenChar r
  let r ← matchLit [':'] r
  let (sym, r) ← matchRun1 isWordHyphenChar r
  some (lib ++ ':' :: sym, matchAtClause r)

/-- Fixed-position matcher of `parseAddComponent`'s second pattern
`add\s+component\s+(\w+)(?:\s+at\s+...)?` (lines 929-945). -/
def tryAddBare (l : Str) : Option (Str × Option (Int × Int)) := do
  let r ← matchLit (str "add") l
  let r ← matchWS1 r
  let r ← matchLit (str "component") r
  let r ← matchWS1 r
  let (name, r) ← matchRun1 isWordChar r
  some (name, matchAtClause r)

/-- `AI_COMMAND_PROCESSOR::parseAddComponent` (lines 901-948): the `lib:sym`
pattern first, the bare-name pattern second; the returned coordinates are
`none` when the `at` clause is absent (the caller's in-out position variable
stays at its initializer). The command reaching this parser was already
lowercased by `processDirectCommand`, matching the regexes' `wxRE_ICASE`. -/
def parseAddComponent (aCommand : Str) : Option (Str × Option (Int × Int)) :=
  match scanMatch tryAddLibSym aCommand with
  | some res => some res
  | none => scanMatch tryAddBare aCommand

/-- Fixed-position matcher of `parseConnectCommand`'s first pattern
`(?:connect|wire)\s+(\w+)\.([\w\d]+)\s+to\s+(\w+)\.([\w\d]+)` (line 1350). -/
def tryConnectDot (l : Str) : Option (Str × Str × Str × Str) := do
  let r ← matchLit (str "connect") l <|> matchLit (str "wire") l
  let r ← matchWS1 r
  let (ref1, r) ← matchRun1 isWordChar r
  let r ← matchLit ['.'] r
  let (pin1, r) ← matchRun1 isWordChar r
  let r ← matchWS1 r
  let r ← matchLit (str "to") r
  let r ← matchWS1 r
  let (ref2, r) ← matchRun1 isWordChar r
  let r ← matchLit ['.'] r
  let (pin2, _) ← matchRun1 isWordChar r
  some (ref1, pin1, ref2, pin2)

/-- Fixed-position matcher of `parseConnectCommand`'s second pattern
`(?:connect|wire)\s+(\w+)\s+pin\s+([\w\d]+)\s+to\s+(\w+)\s+pin\s+([\w\d]+)`
(line 1361). -/
def tryConnectPin (l : Str) : Option (Str × Str × Str × Str) := do
  let r ← matchLit (str "connect") l <|> matchLit (str "wire") l
  let r ← matchWS1 r
  let (ref1, r) ← matchRun1 isWordChar r
  let r ← matchWS1 r
  let r ← matchLit (str "pin") r
  let r ← matchWS1 r
  let (pin1, r) ← matchRun1 isWordChar r
  let r ← matchWS1 r
  let r ← matchLit (str "to") r
  let r ← matchWS1 r
  let (ref2, r) ← matchRun1 isWordChar r
  let r ← matchWS1 r
  let r ← matchLit (str "pin") r
  let r ← matchWS1 r
  let (pin2, _) ← matchRun1 isWordChar r
  some (ref1, pin1, ref2, pin2)

/-- `AI_COMMAND_PROCESSOR::parseConnectCommand` (lines 1340-1372). -/
def parseConnectCommand (aCommand : Str) : Option (Str × Str × Str × Str) :=
  match scanMatch tryConnectDot aCommand with
  | some res => some res
  | none => scanMatch tryConnectPin aCommand

/-- Fixed-position matcher of `parseModifyComponent`'s pattern
`(?:modify|change)\s+component\s+(\w+)` (line 953). -/
def tryModifyComponent (l : Str) : Option Str := do
  let r ← matchLit (str "modify") l <|> matchLit (str "change") l
  let r ← matchWS1 r
  let r ← matchLit (str "component") r
  let r ← matchWS1 r
  let (refDes, _) ← matchRun1 isWordChar r
  some refDes

/-- `AI_COMMAND_PROCESSOR::parseModifyComponent` (lines 951-960). -/
def parseModifyComponent (aCommand : Str) : Option Str :=
  scanMatch tryModifyComponent aCommand

/-- `LIB_ID`: (library nickname, item name). -/
structure LIBID where
  nickname : Str
  itemName : Str
deriving DecidableEq, Repr

/-- One pin of a schematic symbol: shown name, shown number, world position. -/
structure SchPin where
  shownName : Str
  shownNumber : Str
  pos : Int × Int
deriving DecidableEq, Repr

/-- One entry of the schematic's reference list: reference designator and the
symbol's pins. -/
structure SchSymbolRef where
  refDes : Str
  pins : List SchPin
deriving DecidableEq, Repr

/-- Edits committed against the host by the executor. -/
inductive EditEvent where
  | placeSymbol (libId : LIBID) (pos : Int × Int)
  | drawWire (a b : Int × Int)
deriving DecidableEq, Repr

/-- Host state visible to the schematic executor: whether the frame casts to
`SCH_EDIT_FRAME`, the merged symbol-library-table row nicknames (`none` when
no adapter is available), the symbol-load and symbol-enumeration oracles, the
screen's presence, and the reference list of the current hierarchy. -/
structure SchFrameEnv where
  isSchEditFrame : Bool
  adapter : Option (List Str)
  loadOk : Str → Str → Bool
  symbolNames : Str → List Str
  screenOk : Bool
  refList : List SchSymbolRef

/-- `GetLibraryNames` (lines 540-559): the non-empty nicknames of the merged
library table. -/
def getLibraryNames (adapter : Option (List Str)) : List Str :=
  match adapter with
  | none => []
  | some rows => rows.filter (fun r => r ≠ [])

/-- `wxString::BeforeFirst`. -/
def beforeFirstL (c : Char) (l : Str) : Str := l.takeWhile (· != c)

/-- `wxString::AfterFirst` (empty when the character is absent). -/
def afterFirstL (c : Char) (l : Str) : Str :=
  match l.dropWhile (· != c) with
  | [] => []
  | _ :: t => t

/-- Bare-name scan of `findSymbolByName` (lines 1216-1236): first library row
whose symbol list holds a case-insensitive match. -/
def findSymbolScan (symbolNames : Str → List Str) (name : Str) : List Str → Option LIBID
  | [] => none
  | row :: rest =>
    match (symbolNames row).find? (fun s => cmpNoCase s name) with
    | some s => some ⟨row, s⟩
    | none => findSymbolScan symbolNames name rest

/-- `AI_COMMAND_PROCESSOR::findSymbolByName` (lines 1190-1240). -/
def findSymbolByName (env : SchFrameEnv) (symbolName : Str) : Option LIBID :=
  match env.adapter with
  | none => none
  | some rows =>
    if isInfixL [':'] symbolName then
      let libName := beforeFirstL ':' symbolName
      let symName := afterFirstL ':' symbolName
      if env.loadOk libName symName then some ⟨libName, symName⟩ else none
    else
      findSymbolScan env.symbolNames symbolName rows

/-- `AI_COMMAND_PROCESSOR::executePlaceComponent` (lines 1243-1305): re-resolve
the nickname case-insensitively against the table rows, load the symbol from
the first matching row that loads, and commit a `Place Symbol` edit carrying
the row's exact-case nickname. -/
def executePlaceComponent (env : SchFrameEnv) (libId : LIBID) (pos : Int × Int) :
    Bool × List EditEvent :=
  if !env.isSchEditFrame then (false, [])
  else
    match env.adapter with
    | none => (false, [])
    | some rows =>
      match rows.find? (fun row => cmpNoCase row libId.nickname && env.loadOk row libId.itemName) with
      | none => (false, [])
      | some actual =>
        if !env.screenOk then (false, [])
        else (true, [.placeSymbol ⟨actual, libId.itemName⟩ pos])

/-- `%d` rendering of a coordinate. -/
def intStr (i : Int) : Str := (toString i).data

/-- Placement call and result formatting of `processSchematicCommand`
(lines 646-659). -/
def placeAndReport (env : SchFrameEnv) (libId : LIBID) (pos : Int × Int)
    (componentName : Str) : AICommandResult × List EditEvent :=
  match executePlaceComponent env libId pos with
  | (true, evs) =>
    (⟨true, str "Added component '" ++ componentName ++ str "' at ("
        ++ intStr pos.1 ++ str ", " ++ intStr pos.2 ++ str ")", []⟩, evs)
  | (false, _) =>
    (⟨false, [], str "Failed to place component '" ++ componentName
        ++ str "' (library: " ++ libId.nickname ++ str ", symbol: " ++ libId.itemName
        ++ str "). Check that the library is loaded and the symbol exists."⟩, [])

/-- Add-component branch of `processSchematicCommand` after a successful
parse (lines 574-660): default position, `lib:sym` resolution against the
library table (exact-case nickname of the first case-insensitive match, or
the `Library not found` failure), bare-name search otherwise, then placement. -/
def processParsedAdd (env : SchFrameEnv) (componentName : Str)
    (coords? : Option (Int × Int)) : AICommandResult × List EditEvent :=
  let position0 := match coords? with | some c => c | none => ((0 : Int), (0 : Int))
  let position := if position0.1 ≠ 0 ∨ position0.2 ≠ 0 then position0 else (100000, 100000)
  if isInfixL [':'] componentName then
    let libName := beforeFirstL ':' componentName
    let symName := afterFirstL ':' componentName
    match env.adapter with
    | some rows =>
      match rows.find? (fun row => cmpNoCase row libName) with
      | some actualLibName => placeAndReport env ⟨actualLibName, symName⟩ position componentName
      | none =>
        let availableLibs := getLibraryNames env.adapter
        let libList :=
          if availableLibs.isEmpty then
            str "(none - check Preferences > Manage Symbol Libraries)"
          else joinChar ',' availableLibs
        (⟨false, [], str "Library '" ++ libName ++ str "' not found. Available libraries: "
            ++ libList⟩, [])
    | none => placeAndReport env ⟨libName, symName⟩ position componentName
  else
    match findSymbolByName env componentName with
    | some libId => placeAndReport env libId position componentName
    | none =>
      (⟨false, [], str "Component '" ++ componentName ++ str "' not found in libraries"⟩, [])

/-- Pin match of `executeConnectComponents` (lines 1432-1458): shown name or
shown number, verbatim or against the P-stripped variant when that variant is
non-empty. -/
def pinMatches (pin : SchPin) (target alt : Str) : Bool :=
  cmpNoCase pin.shownName target || cmpNoCase pin.shownNumber target ||
    (alt ≠ [] && (cmpNoCase pin.shownName alt || cmpNoCase pin.shownNumber alt))

/-- P-prefix strip (lines 1423-1430): only when the pin identifier starts with
a capital `P` (`wxString::StartsWith` is case-sensitive) and is longer than
one character. -/
def pinAlt (p : Str) : Str :=
  if isPrefixL (str "P") p && decide (p.length > 1) then p.drop 1 else []

/-- `AI_COMMAND_PROCESSOR::executeConnectComponents` (lines 1375-1468)
followed by `executeDrawWire` (lines 1308-1337): resolve both references
case-insensitively (last match wins — the loop has no break), resolve both
pins, and commit a `Draw Wire` edit between the pin positions. -/
def executeConnectComponents (env : SchFrameEnv) (ref1 pin1 ref2 pin2 : Str) :
    Option (List EditEvent) :=
  if !env.isSchEditFrame then none
  else
    let symbol1 := env.refList.foldl
      (fun acc s => if cmpNoCase s.refDes ref1 then some s else acc) none
    let symbol2 := env.refList.foldl
      (fun acc s => if cmpNoCase s.refDes ref2 then some s else acc) none
    match symbol1, symbol2 with
    | some s1, some s2 =>
      match s1.pins.find? (fun p => pinMatches p pin1 (pinAlt pin1)),
          s2.pins.find? (fun p => pinMatches p pin2 (pinAlt pin2)) with
      | some q1, some q2 =>
        if env.screenOk then some [.drawWire q1.pos q2.pos] else none
      | _, _ => none
    | _, _ => none

/-- Failure result shared by unrecognized commands (line 693). -/
def notRecognized : AICommandResult × List EditEvent :=
  (⟨false, [], str "Command not recognized or incomplete"⟩, [])

/-- `AI_COMMAND_PROCESSOR::processSchematicCommand` (lines 562-694): the
add-component branch, the connect/wire branch, and the modify branch, in
source order; any fall-through yields `Command not recognized or incomplete`. -/
def processSchematicCommand (env : SchFrameEnv) (aCommand : Str) :
    AICommandResult × List EditEvent :=
  if !env.isSchEditFrame then (⟨false, [], str "Not in schematic editor"⟩, [])
  else if isInfixL (str "add") aCommand
      && (isInfixL (str "component") aCommand || isInfixL (str "symbol") aCommand) then
    match parseAddComponent aCommand with
    | some (name, coords?) => processParsedAdd env name coords?
    | none => notRecognized
  else if isInfixL (str "connect") aCommand || isInfixL (str "wire") aCommand then
    match parseConnectCommand aCommand with
    | some (r1, p1, r2, p2) =>
      match executeConnectComponents env r1 p1 r2 p2 with
      | some evs =>
        (⟨true, str "Connected " ++ r1 ++ '.' :: p1 ++ str " to " ++ r2 ++ '.' :: p2, []⟩, evs)
      | none =>
        (⟨false, [], str "Failed to connect " ++ r1 ++ '.' :: p1 ++ str " to "
            ++ r2 ++ '.' :: p2⟩, [])
    | none => notRecognized
  else if isInfixL (str "modify") aCommand || isInfixL (str "change") aCommand then
    match parseModifyComponent aCommand with
    | some refDes =>
      (⟨true, str "Would modify component '" ++ refDes ++ str "'", []⟩, [])
    | none => notRecognized
  else notRecognized

/-- `AI_COMMAND_PROCESSOR::processDirectCommand` (lines 524-536) on the
schematic route (`GetContext() == "schematic"`, the route every claim
exercises): lowercase the command, right-trim it, and dispatch to
`processSchematicCommand`. -/
def processDirectCommandSch (env : SchFrameEnv) (aCommand : Str) :
    AICommandResult × List EditEvent :=
  processSchematicCommand env (trimRightL (lowerL aCommand))

theorem executePlaceComponent_mem {env : SchFrameEnv} {libId : LIBID} {pos : Int × Int}
    {lid : LIBID} {p : Int × Int}
    (hmem : EditEvent.placeSymbol lid p ∈ (executePlaceComponent env libId pos).2) :
    p = pos ∧ lid.itemName = libId.itemName
      ∧ ∃ rows, env.adapter = some rows ∧ lid.nickname ∈ rows := by
  unfold executePlaceComponent at hmem
  split at hmem
  · simp at hmem
  · split at hmem
    · simp at hmem
    · next rows heq =>
      split at hmem
      · simp at hmem
      · next actual hfind =>
        split at hmem
        · simp at hmem
        · simp only [List.mem_singleton, EditEvent.placeSymbol.injEq] at hmem
          obtain ⟨hlid, hp⟩ := hmem
          subst hlid
          exact ⟨hp, rfl, rows, heq, by
            have := List.mem_of_find?_eq_some hfind
            simpa using this⟩

theorem placeAndReport_mem {env : SchFrameEnv} {libId : LIBID} {pos : Int × Int}
    {name : Str} {lid : LIBID} {p : Int × Int}
    (hmem : EditEvent.placeSymbol lid p ∈ (placeAndReport env libId pos name).2) :
    EditEvent.placeSymbol lid p ∈ (executePlaceComponent env libId pos).2 := by
  unfold placeAndReport at hmem
  split at hmem
  · next evs heq => rw [heq]; simpa using hmem
  · simp at hmem

theorem executeConnectComponents_shape {env : SchFrameEnv} {r1 p1 r2 p2 : Str}
    {evs : List EditEvent}
    (h : executeConnectComponents env r1 p1 r2 p2 = some evs) :
    ∃ a b, evs = [EditEvent.drawWire a b] := by
  unfold executeConnectComponents at h
  split at h
  · simp at h
  · dsimp only at h
    split at h
    · split at h
      · split at h
        · simp only [Option.some.injEq] at h
          exact ⟨_, _, h.symm⟩
        · simp at h
      · simp at h
    · simp at h

theorem processParsedAdd_mem {env : SchFrameEnv} {name : Str}
    {coords? : Option (Int × Int)} {lid : LIBID} {p : Int × Int}
    (hmem : EditEvent.placeSymbol lid p ∈ (processParsedAdd env name coords?).2) :
    ∃ libId pos, EditEvent.placeSymbol lid p ∈ (executePlaceComponent env libId pos).2 := by
  unfold processParsedAdd at hmem
  dsimp only at hmem
  split at hmem
  · split at hmem
    · split at hmem
      · exact ⟨_, _, placeAndReport_mem hmem⟩
      · simp at hmem
    · exact ⟨_, _, placeAndReport_mem hmem⟩
  · split at hmem
    · exact ⟨_, _, placeAndReport_mem hmem⟩
    · simp at hmem

theorem processSchematicCommand_mem {env : SchFrameEnv} {cmd : Str}
    {lid : LIBID} {p : Int × Int}
    (hmem : EditEvent.placeSymbol lid p ∈ (processSchematicCommand env cmd).2) :
    ∃ libId pos, EditEvent.placeSymbol lid p ∈ (executePlaceComponent env libId pos).2 := by
  unfold processSchematicCommand at hmem
  split at hmem
  · simp at hmem
  · split at hmem
    · split at hmem
      · exact processParsedAdd_mem hmem
      · simp [notRecognized] at hmem
    · split at hmem
      · split at hmem
        · next r1 p1 r2 p2 hparse =>
          split at hmem
          · next evs hconn =>
            obtain ⟨a, b, rfl⟩ := executeConnectComponents_shape hconn
            simp at hmem
          · simp at hmem
        · simp [notRecognized] at hmem
      · split at hmem
        · split at hmem
          · simp at hmem
          · simp [notRecognized] at hmem
        · simp [notRecognized] at hmem

/-- An explicit coordinate of exactly `0,0` yields a post-parse state
identical to an absent `at` clause. -/
theorem processParsedAdd_zero_eq (env : SchFrameEnv) (name : Str) :
    processParsedAdd env name (some ((0 : Int), (0 : Int)))
      = processParsedAdd env name none := rfl

/-- Every placement committed by the add branch is at the computed position:
the parsed coordinates when non-zero, the default `(100000, 100000)`
otherwise. -/
theorem processParsedAdd_pos {env : SchFrameEnv} {name : Str}
    {coords? : Option (Int × Int)} {lid : LIBID} {p pos0 : Int × Int}
    (hc : (match coords? with | some c => c | none => ((0 : Int), (0 : Int))) = pos0)
    (hmem : EditEvent.placeSymbol lid p ∈ (processParsedAdd env name coords?).2) :
    p = if pos0.1 ≠ 0 ∨ pos0.2 ≠ 0 then pos0 else (100000, 100000) := by
  unfold processParsedAdd at hmem
  dsimp only at hmem
  rw [hc] at hmem
  split at hmem
  · split at hmem
    · split at hmem
      · exact (executePlaceComponent_mem (placeAndReport_mem hmem)).1
      · simp at hmem
    · exact (executePlaceComponent_mem (placeAndReport_mem hmem)).1
  · split at hmem
    · exact (executePlaceComponent_mem (placeAndReport_mem hmem)).1
    · simp at hmem

/-- Evaluation of the schematic command dispatch on the lowered command
`add component device:r at 0,0`. -/
theorem processSchematic_add0_eq (env : SchFrameEnv) (h : env.isSchEditFrame = true) :
    processSchematicCommand env (str "add component device:r at 0,0")
      = processParsedAdd env (str "device:r") (some ((0 : Int), (0 : Int))) := by
  unfold processSchematicCommand
  rw [h]
  simp only [Bool.not_true, Bool.false_eq_true, if_false]
  rw [show (isInfixL (str "add") (str "add component device:r at 0,0")
      && (isInfixL (str "component") (str "add component device:r at 0,0")
        || isInfixL (str "symbol") (str "add component device:r at 0,0"))) = true from by decide]
  rw [show parseAddComponent (str "add component device:r at 0,0")
      = some (str "device:r", some ((0 : Int), (0 : Int))) from by decide]
  rfl

/-- Evaluation of the schematic command dispatch on the lowered command
`add component foo:bar`. -/
theorem processSchematic_fooBar_eq (env : SchFrameEnv) (h : env.isSchEditFrame = true) :
    processSchematicCommand env (str "add component foo:bar")
      = processParsedAdd env (str "foo:bar") none := by
  unfold processSchematicCommand
  rw [h]
  simp only [Bool.not_true, Bool.false_eq_true, if_false]
  rw [show (isInfixL (str "add") (str "add component foo:bar")
      && (isInfixL (str "component") (str "add component foo:bar")
        || isInfixL (str "symbol") (str "add component foo:bar"))) = true from by decide]
  rw [show parseAddComponent (str "add component foo:bar") = some (str "foo:bar", none) from by decide]
  rfl

theorem library_not_found_error (rows : List Str) (loadOk : Str → Str → Bool)
    (symbolNames : Str → List Str) (screenOk : Bool) (refList : List SchSymbolRef)
    (hnomatch : ∀ r ∈ rows, cmpNoCase r (str "foo") = false)
    (hne : rows ≠ []) (hnonempty : ∀ r ∈ rows, r ≠ []) :
    processDirectCommandSch ⟨true, some rows, loadOk, symbolNames, screenOk, refList⟩
        (str "add component Foo:Bar")
      = (⟨false, [], str "Library 'foo' not found. Available libraries: "
          ++ joinChar ',' rows⟩, []) := by
  have h0 : processDirectCommandSch ⟨true, some rows, loadOk, symbolNames, screenOk, refList⟩
      (str "add component Foo:Bar")
      = processSchematicCommand ⟨true, some rows, loadOk, symbolNames, screenOk, refList⟩
        (str "add component foo:bar") := rfl
  rw [h0, processSchematic_fooBar_eq _ rfl]
  unfold processParsedAdd
  dsimp only
  rw [show isInfixL [':'] (str "foo:bar") = true from by decide]
  rw [show beforeFirstL ':' (str "foo:bar") = str "foo" from by decide]
  have hfind : rows.find? (fun row => cmpNoCase row (str "foo")) = none :=
    List.find?_eq_none.mpr (fun x hx => by simp [hnomatch x hx])
  rw [hfind]
  have hfilter : List.filter (fun r => decide (r ≠ [])) rows = rows :=
    List.filter_eq_self.mpr (fun a ha => by simp [hnonempty a ha])
  have hempty : rows.isEmpty = false := by
    cases rows with
    | nil => exact absurd rfl hne
    | cons a l => rfl
  dsimp only [getLibraryNames]
  rw [hfilter, hempty]
  rfl

def env4 : SchFrameEnv where
  isSchEditFrame := true
  adapter := some []
  loadOk := fun _ _ => true
  symbolNames := fun _ => []
  screenOk := true
  refList := [⟨str "U1", [⟨[], str "1", (0, 0)⟩]⟩, ⟨str "C1", [⟨[], str "2", (10, 10)⟩]⟩]

/-- C4: the claim's pin-alias scenario fails on the code.  With `U1` holding
pin number `1` and `C1` holding pin number `2`, the command
`connect U1.P1 to C1.2` fails pin resolution and commits no edit — because
`processDirectCommand` lowercases the command to `connect u1.p1 to c1.2` and
the P-strip in `executeConnectComponents` tests `StartsWith("P")`
case-sensitively, so `p1` is never stripped to `1`; the same connection
addressed as `U1.1` succeeds. -/
theorem pin_alias_strip_defeated :
    (processDirectCommandSch env4 (str "connect U1.P1 to C1.2")).1
      = ⟨false, [], str "Failed to connect u1.p1 to c1.2"⟩
    ∧ (processDirectCommandSch env4 (str "connect U1.P1 to C1.2")).2 = []
    ∧ (processDirectCommandSch env4 (str "connect U1.1 to C1.2")).2
      = [EditEvent.drawWire (0, 0) (10, 10)] := by
  refine ⟨by decide, by decide, by decide⟩

/-- C6: every `Place Symbol` edit committed by the schematic route carries a
library nickname that is character-identical to some row of the library
table — the requested casing never leaks into the emitted LibraryId. -/
theorem placed_nickname_matches_table_row (env : SchFrameEnv) (rows : List Str)
    (hadapter : env.adapter = some rows) (cmd : Str) (lid : LIBID) (pos : Int × Int)
    (hmem : EditEvent.placeSymbol lid pos ∈ (processDirectCommandSch env cmd).2) :
    lid.nickname ∈ rows := by
  have hmem2 : EditEvent.placeSymbol lid pos
      ∈ (processSchematicCommand env (trimRightL (lowerL cmd))).2 := hmem
  obtain ⟨libId, pos', h⟩ := processSchematicCommand_mem hmem2
  obtain ⟨-, -, rows', hrows', hmemrow⟩ := executePlaceComponent_mem h
  rw [hadapter] at hrows'
  obtain rfl := Option.some.inj hrows'
  exact hmemrow

def env6 : SchFrameEnv where
  isSchEditFrame := true
  adapter := some [str "Device"]
  loadOk := fun _ _ => true
  symbolNames := fun _ => []
  screenOk := true
  refList := []

/-- Witness for C6: placing `add component device:R` against the table row
`Device` commits a placement whose nickname is the row's exact-case
`Device`. -/
theorem placed_nickname_matches_table_row_wit :
    (LIBID.mk (str "Device") (str "r")).nickname ∈ [str "Device"] :=
  placed_nickname_matches_table_row env6 [str "Device"] rfl
    (str "add component device:R") ⟨str "Device", str "r"⟩ (100000, 100000) (by decide)

def env7 : SchFrameEnv where
  isSchEditFrame := true
  adapter := some [str "Device", str "Connector"]
  loadOk := fun _ _ => true
  symbolNames := fun _ => []
  screenOk := true
  refList := []

/-- C7 counterexample: for `add component Foo:Bar` against the table
`Device, Connector`, the error message carries the lowercased nickname
`foo` — `Library 'foo' not found. Available libraries: Device,Connector` —
not the claimed verbatim `'Foo'`, because `processDirectCommand` lowercases
the whole command before parsing. -/
theorem library_not_found_message_cex :
    (processDirectCommandSch env7 (str "add component Foo:Bar")).1.error
      = str "Library 'foo' not found. Available libraries: Device,Connector"
    ∧ (processDirectCommandSch env7 (str "add component Foo:Bar")).1.error
      ≠ str "Library 'Foo' not found. Available libraries: Device,Connector" := by
  refine ⟨by decide, by decide⟩

/-- Witness for the amended C7 theorem at the library table
`Device, Connector`. -/
theorem library_not_found_error_wit :
    processDirectCommandSch
        ⟨true, some [str "Device", str "Connector"], fun _ _ => true, fun _ => [], true, []⟩
        (str "add component Foo:Bar")
      = (⟨false, [], str "Library 'foo' not found. Available libraries: "
          ++ joinChar ',' [str "Device", str "Connector"]⟩, []) :=
  library_not_found_error [str "Device", str "Connector"] (fun _ _ => true) (fun _ => []) true []
    (by decide) (by decide) (by decide)

/-- C10: a schematic `add component` command whose explicit coordinate is
exactly `0,0` behaves identically to the same command without an `at` clause,
and any symbol placed by it is placed at the default position
`(100000, 100000)`. -/
theorem add_component_zero_coordinate_default (env : SchFrameEnv) :
    processDirectCommandSch env (str "add component Device:R at 0,0")
      = processDirectCommandSch env (str "add component Device:R")
    ∧ ∀ (lid : LIBID) (pos : Int × Int),
        EditEvent.placeSymbol lid pos
          ∈ (processDirectCommandSch env (str "add component Device:R at 0,0")).2
        → pos = ((100000 : Int), (100000 : Int)) := by
  refine ⟨rfl, ?_⟩
  intro lid pos hmem
  have hmem2 : EditEvent.placeSymbol lid pos
      ∈ (processSchematicCommand env (str "add component device:r at 0,0")).2 := hmem
  cases hsch : env.isSchEditFrame with
  | false =>
    unfold processSchematicCommand at hmem2
    rw [hsch] at hmem2
    simp at hmem2
  | true =>
    rw [processSchematic_add0_eq env hsch] at hmem2
    have hpos := processParsedAdd_pos rfl hmem2
    simpa using hpos

def env10 : SchFrameEnv where
  isSchEditFrame := true
  adapter := some [str "Device"]
  loadOk := fun _ _ => true
  symbolNames := fun _ => []
  screenOk := true
  refList := []

/-- Witness for C10: a concrete environment in which the `at 0,0` command
commits a placement, necessarily at `(100000, 100000)`. -/
theorem add_component_zero_coordinate_default_wit :
    EditEvent.placeSymbol ⟨str "Device", str "r"⟩ ((100000 : Int), (100000 : Int))
        ∈ (processDirectCommandSch env10 (str "add component Device:R at 0,0")).2
    ∧ ((100000 : Int), (100000 : Int)) = ((100000 : Int), (100000 : Int)) :=
  ⟨by decide,
    (add_component_zero_coordinate_default env10).2 ⟨str "Device", str "r"⟩
      ((100000 : Int), (100000 : Int)) (by decide)⟩
